import Mathlib

/-!
# Verification of the Encryption-Envelope pack/unpack library

Shallow embedding of `src/index.ts` (class `DIDComm` plus the private
`Ed25519PubEncoder`), against the repository's specification.

The development has two layers:

* `ByteCodec`: concrete, executable models of the text codecs the code uses —
  the `base-58` npm package (a base-X big-number codec over byte arrays) and
  libsodium's URL-safe base64 (`to_base64` / `from_base64`), together with the
  `b64dec` padding normalization from `DIDComm.b64dec`.  These are the codecs
  the spec's round-trip claims are about.

* a symbolic envelope layer (`Data`, `Sodium`, `DIDComm`): the cryptographic
  primitives of libsodium are external collaborators, modeled symbolically
  (a sealed box is a constructor remembering message and recipient key; opening
  pattern-matches and checks the key correspondence, which is exactly the
  behavior of the real primitives up to cryptographic failure).  The base-64 /
  base-58 text codecs appear in this layer through their round-trip laws, which
  the `ByteCodec` layer proves for the real algorithms.  JSON serialization is
  a JavaScript builtin (out of scope per the spec); a JSON-serializable value
  is represented by its canonical serialization, so that `JSON.parse` after
  `JSON.stringify` is the identity on the represented value.
-/

namespace ByteCodec

/-- Alphabet of the `base-58` npm package (Bitcoin alphabet). -/
def b58Alphabet : List Char :=
  "123456789ABCDEFGHJKLMNPQRSTUVWXYZabcdefghijkmnopqrstuvwxyz".toList

/-- Digit value to base-58 character. -/
def b58Char (d : Nat) : Char := b58Alphabet.getD d '?'

/-- Base-58 character back to its digit value (`ALPHABET_MAP` lookup in the
npm package); `none` models the decoder throwing on a foreign character. -/
def b58Index (c : Char) : Option Nat := b58Alphabet.findIdx? (· == c)

/-- Fuelled little-endian base-`b` digit expansion.  Kernel-reducible stand-in
for `Nat.digits` (which is defined by well-founded recursion), so that concrete
witnesses evaluate. -/
def toDigitsLE (b : Nat) : Nat → Nat → List Nat
  | 0, _ => []
  | fuel + 1, n => if n = 0 then [] else n % b :: toDigitsLE b fuel (n / b)

/-- The leading-zeros count of the npm `encode` loop
(`for (i = 0; buffer[i] === 0 && i < buffer.length - 1; i++)`): number of
leading zero entries, capped at length minus one. -/
def jsLeadZeros : List Nat → Nat
  | [] => 0
  | [_] => 0
  | x :: y :: rest => if x = 0 then jsLeadZeros (y :: rest) + 1 else 0

/-- Same loop shape on the decode side, counting leading `'1'` characters. -/
def jsLeadOnes : List Char → Nat
  | [] => 0
  | [_] => 0
  | c :: c' :: rest => if c = '1' then jsLeadOnes (c' :: rest) + 1 else 0

/-- Little-endian base-58 digit list of the accumulated number; the npm
`digits` array is initialized to `[0]`, hence `[0]` for the number zero. -/
def encDigits (N : Nat) : List Nat := if N = 0 then [0] else toDigitsLE 58 N N

/-- Little-endian byte list of the accumulated number on the decode side; the
npm `bytes` array is initialized to `[0]`, hence `[0]` for zero. -/
def decBytes (N : Nat) : List Nat := if N = 0 then [0] else toDigitsLE 256 N N

namespace Base58

/-- `Base58.encode` of the `base-58` npm package.  The element loop performs
`N := N * 256 + buffer[i]` in big-number form (so an element larger than 255 —
as passed by `Ed25519PubEncoder.encode` — simply contributes its full value at
that position), then prints `N` in base 58, with one `'1'` per leading zero
element. -/
def encode (buffer : List Nat) : List Char :=
  if buffer.isEmpty then []
  else
    ((List.replicate (jsLeadZeros buffer) 0) ++
      (encDigits (buffer.foldl (fun a d => a * 256 + d) 0)).reverse).map b58Char

/-- `Base58.decode` of the npm package: big-number accumulation
`N := N * 58 + value(char)` over the characters, printed in base 256, with one
zero byte per leading `'1'`; `none` when a character is outside the alphabet. -/
def decode (s : List Char) : Option (List Nat) :=
  match s.mapM b58Index with
  | none => none
  | some vals =>
      some ((List.replicate (jsLeadOnes s) 0) ++
        (decBytes (vals.foldl (fun a v => a * 58 + v) 0)).reverse)

end Base58

/-- The `did:key:z` text head used by `Ed25519PubEncoder`. -/
def didHead : List Char := "did:key:z".toList

namespace Ed25519PubEncoder

/-- `this.code` of `Ed25519PubEncoder` — a single number `0xed01`, pushed as
one array element in `[this.code, ...bytes]`. -/
def code : Nat := 0xed01

/-- `Ed25519PubEncoder.encode`: formats `did:key:z` plus the base-58 encoding
of `[0xed01, ...bytes]`. -/
def encode (bytes : List Nat) : List Char :=
  didHead ++ Base58.encode (code :: bytes)

/-- `Ed25519PubEncoder.decode`: requires the `did:key:z6Mk` head (else the
source throws "Only ed25519 keys are supported" — `none` here), base-58-decodes
the remainder after `did:key:z`, and strips the two leading tag bytes. -/
def decode (key : List Char) : Option (List Nat) :=
  if ("did:key:z6Mk".toList).isPrefixOf key then
    (Base58.decode (key.drop 9)).map (fun l => l.drop 2)
  else none

end Ed25519PubEncoder

/-- Fixed-width little-endian base-`b` digit expansion, for splitting the
digit string of `q * b ^ m + r` at position `m`. -/
def padDigits (b : Nat) : Nat → Nat → List Nat
  | 0, _ => []
  | m + 1, r => r % b :: padDigits b m (r / b)

/-- URL-safe base64 alphabet used by libsodium's URLSAFE variants. -/
def b64Alphabet : List Char :=
  "ABCDEFGHIJKLMNOPQRSTUVWXYZabcdefghijklmnopqrstuvwxyz0123456789-_".toList

/-- 6-bit value to URL-safe base64 character. -/
def b64Char (v : Nat) : Char := b64Alphabet.getD v '?'

/-- URL-safe base64 character back to its 6-bit value; `none` for a character
outside the alphabet (in particular for `'='`). -/
def b64Val (c : Char) : Option Nat := b64Alphabet.findIdx? (· == c)

/-- libsodium `to_base64` restricted to the two URL-safe variants: URLSAFE
(`pad = true`, trailing `'='` to a multiple of four characters) and
URLSAFE_NO_PADDING (`pad = false`). -/
def to_base64 (pad : Bool) : List Nat → List Char
  | [] => []
  | [a] => b64Char (a / 4) :: b64Char (a % 4 * 16) :: (if pad then ['=', '='] else [])
  | [a, b] => b64Char (a / 4) :: b64Char (a % 4 * 16 + b / 16) :: b64Char (b % 16 * 4)
      :: (if pad then ['='] else [])
  | a :: b :: c :: rest => b64Char (a / 4) :: b64Char (a % 4 * 16 + b / 16)
      :: b64Char (b % 16 * 4 + c / 64) :: b64Char (c % 64) :: to_base64 pad rest

/-- libsodium `from_base64` with the padded URLSAFE variant: strict parsing in
groups of four characters; `'='` is accepted only as canonical final padding;
`none` on a foreign character, a length that is not a multiple of four,
misplaced padding, or non-zero leftover bits. -/
def from_base64 : List Char → Option (List Nat)
  | [] => some []
  | c1 :: c2 :: c3 :: c4 :: rest =>
      if rest.isEmpty ∧ c3 = '=' ∧ c4 = '=' then
        match b64Val c1, b64Val c2 with
        | some v1, some v2 => if v2 % 16 = 0 then some [v1 * 4 + v2 / 16] else none
        | _, _ => none
      else if rest.isEmpty ∧ c4 = '=' then
        match b64Val c1, b64Val c2, b64Val c3 with
        | some v1, some v2, some v3 =>
            if v3 % 4 = 0 then some [v1 * 4 + v2 / 16, v2 % 16 * 16 + v3 / 4] else none
        | _, _, _ => none
      else
        match b64Val c1, b64Val c2, b64Val c3, b64Val c4, from_base64 rest with
        | some v1, some v2, some v3, some v4, some tl =>
            some ((v1 * 4 + v2 / 16) :: (v2 % 16 * 16 + v3 / 4) :: (v3 % 4 * 64 + v4) :: tl)
        | _, _, _, _, _ => none
  | _ => none

/-- The padding normalization of `DIDComm.b64dec`:
`while (input.length % 4 !== 0) input += '='`. -/
def padTo4 (s : List Char) : List Char :=
  s ++ List.replicate ((4 - s.length % 4) % 4) '='

/-- `DIDComm.b64dec`: right-pad with `'='` to a multiple of four characters,
then `sodium.from_base64(input, URLSAFE)`. -/
def b64dec (s : List Char) : Option (List Nat) := from_base64 (padTo4 s)

end ByteCodec

/-!
## Symbolic envelope layer

`Data` is a symbolic universe for the byte strings and text strings flowing
through `DIDComm`: raw bytes, base-58 / base-64 text (modeled by constructors,
justified by the concrete round-trip theorems of `ByteCodec`), the outputs of
the libsodium public-key primitives, and the JSON documents the code builds
(represented by their canonical serialization, since the JSON codec is an
external collaborator).  A sealed/authenticated box remembers its message and
keys; opening pattern-matches and succeeds exactly when the supplied keys
correspond to the box's keys — the behavior of the real primitives up to
cryptographic failure.
-/

inductive Data where
  | nil
  | raw (bs : List Nat)
  | b58 (d : Data)
  | b64 (pad : Bool) (d : Data)
  | curvePk (d : Data)
  | curveSk (d : Data)
  | sealBox (m pk : Data)
  | authBox (m n pk sk : Data)
  | aeadCt (scheme : String) (m ad npub k : Data)
  | aeadTag (scheme : String) (m ad npub k : Data)
  | sigNode (m pk : Data)
  | dotPair (a b : Data)
  | jwsProt (kid : List Char) (x : Data)
  | hdrNode (alg enc : String) (recips : Data) (typ : String)
  | recipNil
  | recipCons (encryptedKey iv kid sender rest : Data)
deriving DecidableEq

/-- An Ed25519 keypair as produced by `sodium.crypto_sign_keypair`
(`generateKeyPair` in the source): 32-byte verify key, 64-byte secret key. -/
structure KeyPair where
  publicKey : List Nat
  privateKey : List Nat
deriving DecidableEq

/-- Structural invariant of every libsodium Ed25519 keypair: the secret key is
64 bytes whose second half is the public key. -/
def validKP (kp : KeyPair) : Prop :=
  kp.privateKey.length = 64 ∧ kp.privateKey.drop 32 = kp.publicKey

namespace Sodium

/-- libsodium constant: ChaCha20-Poly1305-IETF nonce size. -/
def crypto_aead_chacha20poly1305_ietf_NPUBBYTES : Nat := 12

/-- libsodium constant: XChaCha20-Poly1305-IETF nonce size. -/
def crypto_aead_xchacha20poly1305_ietf_NPUBBYTES : Nat := 24

/-- libsodium constant: `crypto_box` nonce size. -/
def crypto_box_NONCEBYTES : Nat := 24

/-- `randombytes_buf(n)`: `n` fresh random bytes.  Randomness is determinized
by an explicit seed argument; the length-`n` contract is what matters. -/
def randombytes_buf (n : Nat) (seed : List Nat) : List Nat :=
  (seed ++ List.replicate n 0).take n

/-- `crypto_secretstream_xchacha20poly1305_keygen`: a fresh 32-byte key. -/
def crypto_secretstream_xchacha20poly1305_keygen (seed : List Nat) : List Nat :=
  randombytes_buf 32 seed

/-- Ed25519 → Curve25519 public-key birational map (injective, deterministic),
kept symbolic. -/
def crypto_sign_ed25519_pk_to_curve25519 (pk : Data) : Data := .curvePk pk

/-- Ed25519 → Curve25519 secret-key map, kept symbolic. -/
def crypto_sign_ed25519_sk_to_curve25519 (sk : Data) : Data := .curveSk sk

/-- A converted public key and converted secret key correspond iff they come
from the same Ed25519 identity (the secret key's second 32 bytes are the
Ed25519 public key). -/
def keyMatch : Data → Data → Bool
  | .curvePk (.raw pb), .curveSk (.raw sb) => sb.drop 32 == pb
  | _, _ => false

def crypto_box_seal (m pk : Data) : Data := .sealBox m pk

/-- Sealed-box open: succeeds iff the box was sealed to exactly this public
key and the supplied secret key is its counterpart. -/
def crypto_box_seal_open (c pk sk : Data) : Option Data :=
  match c with
  | .sealBox m p => if p = pk ∧ keyMatch pk sk then some m else none
  | _ => none

def crypto_box_easy (m n pk sk : Data) : Data := .authBox m n pk sk

/-- Authenticated-box open: succeeds iff nonce, receiver key and sender key
all line up with the box. -/
def crypto_box_open_easy (c n pk sk : Data) : Option Data :=
  match c with
  | .authBox m n' pkR skS =>
      if n' = n ∧ keyMatch pkR sk ∧ keyMatch pk skS then some m else none
  | _ => none

/-- Name tag of the AEAD family the source actually calls
(`crypto_aead_chacha20poly1305_ietf_*`). -/
def chacha20poly1305_ietf : String := "chacha20poly1305_ietf"

def crypto_aead_chacha20poly1305_ietf_encrypt_detached (m ad npub k : Data) : Data × Data :=
  (.aeadCt chacha20poly1305_ietf m ad npub k, .aeadTag chacha20poly1305_ietf m ad npub k)

/-- Detached AEAD decryption of the ChaCha20-Poly1305-IETF family: succeeds
iff the ciphertext was produced by the same family with the same associated
data, nonce and key, and the tag matches. -/
def crypto_aead_chacha20poly1305_ietf_decrypt_detached (c mac ad npub k : Data) : Option Data :=
  match c with
  | .aeadCt s m ad' n' k' =>
      if s = chacha20poly1305_ietf ∧ mac = .aeadTag s m ad' n' k'
          ∧ ad' = ad ∧ n' = npub ∧ k' = k
      then some m else none
  | _ => none

/-- `crypto_sign_detached`: an Ed25519 detached signature, remembering the
signed message and the signer (via the public half of the secret key). -/
def crypto_sign_detached (m : Data) (sk : List Nat) : Data :=
  .sigNode m (.raw (sk.drop 32))

def crypto_sign_verify_detached (sig m : Data) (pk : List Nat) : Bool :=
  sig == .sigNode m (.raw pk)

/-- `sodium.memcmp`: constant-time equality of byte strings. -/
def memcmp (a b : Data) : Bool := a == b

/-- `sodium.to_base64` on symbolic data (`pad` selects URLSAFE vs
URLSAFE_NO_PADDING). -/
def to_base64D (pad : Bool) (d : Data) : Data := .b64 pad d

/-- `sodium.from_base64` with the URLSAFE variant after `b64dec`'s padding
normalization: accepts the encoding with either padding flag and returns the
encoded bytes (round-trip law proven concretely in `ByteCodec`). -/
def from_base64D (d : Data) : Option Data :=
  match d with
  | .b64 _ x => some x
  | _ => none

/-- `sodium.to_string`: UTF-8 bytes-to-text identification, the identity on
the symbolic universe. -/
def to_string (d : Data) : Data := d

end Sodium

/-- Symbolic face of the base-58 text codec (`Base58.encode` on a byte
string); round-trip justified by `ByteCodec.Base58`. -/
def SymB58.encode (d : Data) : Data := .b58 d

/-- Symbolic face of `Base58.decode`; `none` models the library throwing on a
string that is not base-58 text. -/
def SymB58.decode (d : Data) : Option Data :=
  match d with
  | .b58 x => some x
  | _ => none

/-- The parsed envelope wrapper `{ciphertext, iv, protected, tag}`
(`protected` is a Lean keyword, hence the trailing underscore). -/
structure Envelope where
  ciphertext : Data
  iv : Data
  protected_ : Data
  tag : Data
deriving DecidableEq

/-- The distinct terminal failures of the unpack/verify paths: the explicit
`throw new Error(...)` sites of the source plus the failures libsodium and the
codecs raise from inside it. -/
inductive Err where
  | unsupportedAlg (alg : String)
  | recipientNotFound
  | missingSenderKey
  | invalidRecipientHeader
  | b58DecodeFailed
  | b64DecodeFailed
  | jsonParseFailed
  | sealOpenFailed
  | boxOpenFailed
  | aeadAuthFailed
  | unsupportedKeyType
deriving DecidableEq

/-- Result record of `unpackMessage` (`IUnpackedMsg`). -/
structure Unpacked where
  message : Data
  recipientKey : Data
  senderKey : Option Data
deriving DecidableEq

/-- Determinized entropy for one `packMessage` call: seed for the content key,
seed for the AEAD nonce, one seed per recipient for the `crypto_box` nonces of
authenticated mode. -/
structure Entropy where
  cekSeed : List Nat
  ivSeed : List Nat
  nonceSeeds : List (List Nat)
deriving DecidableEq

/-- `unpackMessage` accepts either the JSON serialization of an envelope (the
`typeof encMsg === 'string'` branch, with `JSON.parse` modeled through the
external JSON codec's round-trip law) or the already-parsed object. -/
inductive EnvInput where
  | jsonText (w : Envelope)
  | obj (w : Envelope)
deriving DecidableEq

namespace DIDComm

/-- `b64url(input, pad)` — `sodium.to_base64` with URLSAFE (pad) or
URLSAFE_NO_PADDING. -/
def b64url (d : Data) (pad : Bool) : Data := Sodium.to_base64D pad d

/-- `b64dec`: pad to a multiple of four, then `sodium.from_base64(URLSAFE)`;
a libsodium decode failure becomes a thrown error. -/
def b64dec (d : Data) : Except Err Data :=
  match Sodium.from_base64D d with
  | some x => .ok x
  | none => .error .b64DecodeFailed

/-- `strB64dec`: `sodium.to_string(b64dec(input))`. -/
def strB64dec (d : Data) : Except Err Data :=
  (b64dec d).map Sodium.to_string

/-- `encryptPlaintext`: fresh AEAD nonce of
`crypto_aead_chacha20poly1305_ietf_NPUBBYTES` bytes, then detached
`crypto_aead_chacha20poly1305_ietf` encryption of the message under the
associated data; returns `(ciphertext, mac, iv)`. -/
def encryptPlaintext (message addData : Data) (key : List Nat) (ivSeed : List Nat) :
    Data × Data × List Nat :=
  let iv := Sodium.randombytes_buf Sodium.crypto_aead_chacha20poly1305_ietf_NPUBBYTES ivSeed
  let out := Sodium.crypto_aead_chacha20poly1305_ietf_encrypt_detached message addData
    (.raw iv) (.raw key)
  (out.1, out.2, iv)

/-- `decryptPlaintext`: detached `crypto_aead_chacha20poly1305_ietf`
decryption; a tag/associated-data mismatch is libsodium's authentication
failure. -/
def decryptPlaintext (ciphertext mac recipsBin nonce key : Data) : Except Err Data :=
  match Sodium.crypto_aead_chacha20poly1305_ietf_decrypt_detached ciphertext mac
      recipsBin nonce key with
  | some m => .ok (Sodium.to_string m)
  | none => .error .aeadAuthFailed

/-- The `toKeys.forEach` body of `prepareRecipientKeys`, building the
`recipients` array front to back (one `crypto_box` nonce seed consumed per
recipient in authenticated mode). -/
def prepRecips (cek : List Nat) (fromKeys : Option KeyPair) :
    List (List Nat) → List (List Nat) → Data
  | [], _ => .recipNil
  | targetVk :: tvs, seeds =>
      let targetPk := Sodium.crypto_sign_ed25519_pk_to_curve25519 (.raw targetVk)
      match fromKeys with
      | some fk =>
          let senderVk := SymB58.encode (.raw fk.publicKey)
          let senderSk := Sodium.crypto_sign_ed25519_sk_to_curve25519 (.raw fk.privateKey)
          let encSender := Sodium.crypto_box_seal senderVk targetPk
          let nonce := Sodium.randombytes_buf Sodium.crypto_box_NONCEBYTES (seeds.headD [])
          let encCek := Sodium.crypto_box_easy (.raw cek) (.raw nonce) targetPk senderSk
          .recipCons (b64url encCek true) (b64url (.raw nonce) true)
            (SymB58.encode (.raw targetVk)) (b64url encSender true)
            (prepRecips cek fromKeys tvs seeds.tail)
      | none =>
          .recipCons (b64url (Sodium.crypto_box_seal (.raw cek) targetPk) true) .nil
            (SymB58.encode (.raw targetVk)) .nil
            (prepRecips cek fromKeys tvs seeds.tail)

/-- `prepareRecipientKeys`: fresh content key, per-recipient wrapping, then
the protected header object `{alg, enc, recipients, typ}` (its JSON
serialization, represented canonically); returns `(recipsJson, cek)`. -/
def prepareRecipientKeys (toKeys : List (List Nat)) (fromKeys : Option KeyPair)
    (ent : Entropy) : Data × List Nat :=
  let cek := Sodium.crypto_secretstream_xchacha20poly1305_keygen ent.cekSeed
  (.hdrNode (if fromKeys.isSome then "Authcrypt" else "Anoncrypt")
    "xchacha20poly1305_ietf" (prepRecips cek fromKeys toKeys ent.nonceSeeds) "JWM/1.0", cek)

/-- `packMessage`: wrap the content key for the recipients, base64url-encode
the header JSON (with padding), AEAD-encrypt the message with that encoded
header as associated data, and assemble the four-field envelope. -/
def packMessage (message : Data) (toKeys : List (List Nat)) (fromKeys : Option KeyPair)
    (ent : Entropy) : Envelope :=
  let pr := prepareRecipientKeys toKeys fromKeys ent
  let recipsB64 := b64url pr.1 true
  let enc := encryptPlaintext message recipsB64 pr.2 ent.ivSeed
  { ciphertext := b64url enc.1 true
    iv := b64url (.raw enc.2.2) true
    protected_ := recipsB64
    tag := b64url enc.2.1 true }

/-- `JSON.parse(recipsJson)` followed by the two field reads the source
performs (`recipsOuter.alg`, `recipsOuter.recipients`): the only parts of the
protected header `unpackMessage` looks at. -/
def parseProtected (d : Data) : Except Err (String × Data) :=
  match d with
  | .hdrNode alg _enc recips _typ => .ok (alg, recips)
  | _ => .error .jsonParseFailed

/-- `recip.header.iv` / `recip.header.sender` handling:
`field ? b64dec(field) : null`. -/
def decOptField (d : Data) : Except Err (Option Data) :=
  match d with
  | .nil => .ok none
  | d => (b64dec d).map some

/-- `locateRecKey`.  The source's `for (let index in recipients)` loop ends
its first iteration with an unconditional `return`, so only the head entry is
ever examined; a kid mismatch only pushes onto the dead `notFound` array.  The
trailing `throw new Error('No corresponding recipient key found...')` is
reached exactly when `recipients` is empty (or not an array).  The source's
eager `'header' in recip && 'encrypted_key' in recip` structural check throws
'Invalid recipient header' on an entry missing those fields; a symbolic
recipient node always carries them, so that path (`Err.invalidRecipientHeader`)
stays unreachable here — no claim touches malformed entries. -/
def locateRecKey (recipients : Data) (keys : KeyPair) :
    Except Err (Data × Option Data × Data) :=
  match recipients with
  | .recipCons encKey ivF kidF senderF _rest =>
      match SymB58.decode kidF with
      | none => .error .b58DecodeFailed
      | some recipVk =>
          let _mismatchRecorded := !(Sodium.memcmp recipVk (.raw keys.publicKey))
          let pk := Sodium.crypto_sign_ed25519_pk_to_curve25519 (.raw keys.publicKey)
          let sk := Sodium.crypto_sign_ed25519_sk_to_curve25519 (.raw keys.privateKey)
          match b64dec encKey with
          | .error e => .error e
          | .ok encryptedKey =>
          match decOptField ivF with
          | .error e => .error e
          | .ok nonce =>
          match decOptField senderF with
          | .error e => .error e
          | .ok encSender =>
          match nonce, encSender with
          | some n, some es =>
              match Sodium.crypto_box_seal_open es pk sk with
              | none => .error .sealOpenFailed
              | some sv =>
                  let senderVk := Sodium.to_string sv
                  match SymB58.decode senderVk with
                  | none => .error .b58DecodeFailed
                  | some senderRaw =>
                      let senderPk := Sodium.crypto_sign_ed25519_pk_to_curve25519 senderRaw
                      match Sodium.crypto_box_open_easy encryptedKey n senderPk sk with
                      | none => .error .boxOpenFailed
                      | some cek => .ok (cek, some senderVk, kidF)
          | _, _ =>
              match Sodium.crypto_box_seal_open encryptedKey pk sk with
              | none => .error .sealOpenFailed
              | some cek => .ok (cek, none, kidF)
  | _ => .error .recipientNotFound

/-- `unpackMessage`: parse the wrapper (string or object), base64url-decode
and JSON-parse the protected header, validate `alg`, locate and unwrap the
recipient key, enforce the Authcrypt sender requirement, then AEAD-decrypt the
ciphertext with the original still-encoded `protected` string as associated
data.  (The base-58-text keypair normalization branch is not modeled: keypairs
are raw bytes here.) -/
def unpackMessage (encMsg : EnvInput) (toKeys : KeyPair) : Except Err Unpacked :=
  let wrapper := match encMsg with
    | .jsonText w => w
    | .obj w => w
  match strB64dec wrapper.protected_ with
  | .error e => .error e
  | .ok recipsJson =>
  match parseProtected recipsJson with
  | .error e => .error e
  | .ok (alg, recipients) =>
  if alg ≠ "Authcrypt" ∧ alg ≠ "Anoncrypt" then .error (.unsupportedAlg alg)
  else
  match locateRecKey recipients toKeys with
  | .error e => .error e
  | .ok (cek, senderVk, recipVkOut) =>
  if senderVk = none ∧ alg = "Authcrypt" then .error .missingSenderKey
  else
  match b64dec wrapper.ciphertext with
  | .error e => .error e
  | .ok ciphertext =>
  match b64dec wrapper.iv with
  | .error e => .error e
  | .ok nonce =>
  match b64dec wrapper.tag with
  | .error e => .error e
  | .ok tag =>
  match decryptPlaintext ciphertext tag wrapper.protected_ nonce cek with
  | .error e => .error e
  | .ok message => .ok { message := message, recipientKey := recipVkOut, senderKey := senderVk }

/-- The signed-attachment record (`ISignedAttachment`), with the `data.jws`
fields flattened. -/
structure SignedAttachment where
  mimeType : String
  base64 : Data
  kid : List Char
  protected_ : Data
  signature : Data
deriving DecidableEq

/-- `signedAttachment(data, keys)`: did:key of the public key, unpadded
base64url JOSE header (serialization represented by its `kid` and `x`
contents), unpadded base64url payload, and a detached Ed25519 signature over
the text `protectedHeaders + "." + sigData`. -/
def signedAttachment (payload : Data) (keys : KeyPair) : SignedAttachment :=
  let didkey := ByteCodec.Ed25519PubEncoder.encode keys.publicKey
  let protectedHeaders := b64url (.jwsProt didkey (b64url (.raw keys.publicKey) false)) false
  let sigData := b64url payload false
  { mimeType := "application/json"
    base64 := sigData
    kid := didkey
    protected_ := protectedHeaders
    signature := b64url
      (Sodium.crypto_sign_detached (.dotPair protectedHeaders sigData) keys.privateKey) false }

/-- `verifySignedAttachment`: rebuild the signing input from the attachment's
`protected` and `base64` fields, base64-decode the signature, decode the
public key from the `kid` did:key text, and check the detached signature.  A
bad signature yields `ok false`; an undecodable signature or foreign `kid`
throws. -/
def verifySignedAttachment (att : SignedAttachment) : Except Err Bool :=
  let signedInput := Data.dotPair att.protected_ att.base64
  match b64dec att.signature with
  | .error e => .error e
  | .ok signature =>
  match ByteCodec.Ed25519PubEncoder.decode att.kid with
  | none => .error .unsupportedKeyType
  | some pkBytes => .ok (Sodium.crypto_sign_verify_detached signature signedInput pkBytes)

/-- `decodeSignedAttachment`: JSON.parse of the base64url-decoded payload (no
signature check); with payloads represented by their canonical serialization
the parse is the identity. -/
def decodeSignedAttachment (att : SignedAttachment) : Except Err Data :=
  strB64dec att.base64

end DIDComm

deriving instance DecidableEq for Except

/-- Predicate over every entry of a symbolic `recipients` array
(arguments: `encrypted_key`, `header.iv`, `header.kid`, `header.sender`). -/
def recipsAll (p : Data → Data → Data → Data → Bool) : Data → Bool
  | .recipCons encKey iv kid sender rest => p encKey iv kid sender && recipsAll p rest
  | _ => true

/-- `alg` field of a parsed protected header. -/
def algOf : Data → String
  | .hdrNode a _ _ _ => a
  | _ => ""

/-- `enc` field of a parsed protected header. -/
def encOf : Data → String
  | .hdrNode _ e _ _ => e
  | _ => ""

/-- `recipients` field of a parsed protected header. -/
def recipsOf : Data → Data
  | .hdrNode _ _ r _ => r
  | _ => .nil

/-- The protected header carried (base64url-encoded) by an envelope. -/
def protHdr (e : Envelope) : Data :=
  match e.protected_ with
  | .b64 _ d => d
  | _ => .nil

/-- A self-consistent single-recipient Anoncrypt envelope with arbitrary
`enc` and `typ` header fields, for exercising that `unpackMessage` never
inspects them. -/
def mkAnonEnvelope (e t : String) (m : Data) (ck ivb pk : List Nat) : Envelope :=
  { ciphertext := .b64 true (.aeadCt Sodium.chacha20poly1305_ietf m
      (.b64 true (.hdrNode "Anoncrypt" e
        (.recipCons (.b64 true (.sealBox (.raw ck) (.curvePk (.raw pk)))) .nil
          (.b58 (.raw pk)) .nil .recipNil) t)) (.raw ivb) (.raw ck))
    iv := .b64 true (.raw ivb)
    protected_ := .b64 true (.hdrNode "Anoncrypt" e
      (.recipCons (.b64 true (.sealBox (.raw ck) (.curvePk (.raw pk)))) .nil
        (.b58 (.raw pk)) .nil .recipNil) t)
    tag := .b64 true (.aeadTag Sodium.chacha20poly1305_ietf m
      (.b64 true (.hdrNode "Anoncrypt" e
        (.recipCons (.b64 true (.sealBox (.raw ck) (.curvePk (.raw pk)))) .nil
          (.b58 (.raw pk)) .nil .recipNil) t)) (.raw ivb) (.raw ck)) }

/-- Concrete sender keypair for evaluations (seed bytes 7, verify key
`List.range 32`). -/
def wkpA : KeyPair := ⟨List.range 32, List.replicate 32 7 ++ List.range 32⟩

/-- Concrete recipient keypair `B`. -/
def wkpB : KeyPair := ⟨List.replicate 32 1, List.replicate 32 9 ++ List.replicate 32 1⟩

/-- Concrete recipient keypair `C`, distinct from `B`. -/
def wkpC : KeyPair := ⟨List.replicate 32 2, List.replicate 32 5 ++ List.replicate 32 2⟩

/-- Concrete entropy for evaluations. -/
def wEnt : Entropy := ⟨[3, 1, 4], [2, 7, 2], [[9], [8]]⟩

/-- Concrete plaintext for evaluations. -/
def wMsg : Data := .raw [72, 105]

/-- Concrete recipients array of an Authcrypt envelope whose single entry is
anonymous-style (sealed content key, no `iv`, no `sender`). -/
def wStrippedRecips : Data :=
  .recipCons (.b64 true (.sealBox (.raw [1, 2]) (.curvePk (.raw wkpB.publicKey)))) .nil
    (.b58 (.raw wkpB.publicKey)) .nil .recipNil

/-- Concrete Authcrypt envelope around `wStrippedRecips`; the content fields
are irrelevant because unpacking stops before reading them. -/
def wStrippedEnv : Envelope :=
  { ciphertext := .nil, iv := .nil,
    protected_ := .b64 true (.hdrNode "Authcrypt" "xchacha20poly1305_ietf" wStrippedRecips "JWM/1.0"),
    tag := .nil }

instance (kp : KeyPair) : Decidable (validKP kp) := by
  unfold validKP
  infer_instance

/-!
## Proofs

Theorems about the embedded definitions: first the concrete codec layer,
then the symbolic envelope layer, then the claim theorems.
-/

namespace ByteCodec

theorem toDigitsLE_eq_digits (b : Nat) (hb : 2 ≤ b) :
    ∀ fuel n, n ≤ fuel → toDigitsLE b fuel n = Nat.digits b n := by
  intro fuel
  induction fuel with
  | zero =>
      intro n hn
      have : n = 0 := Nat.le_zero.mp hn
      simp [this, toDigitsLE]
  | succ f ih =>
      intro n hn
      by_cases h0 : n = 0
      · simp [h0, toDigitsLE]
      · have hpos : 0 < n := Nat.pos_of_ne_zero h0
        have hdiv : n / b < n := Nat.div_lt_self hpos (by omega)
        have hle : n / b ≤ f := by omega
        rw [toDigitsLE, if_neg h0, ih _ hle, Nat.digits_def' (by omega : 1 < b) hpos]

theorem foldl_mul_add (b : Nat) :
    ∀ (l : List Nat) (a : Nat),
      l.foldl (fun x d => x * b + d) a = a * b ^ l.length + Nat.ofDigits b l.reverse := by
  intro l
  induction l with
  | nil => intro a; simp [Nat.ofDigits]
  | cons d tl ih =>
      intro a
      rw [List.foldl_cons, ih, List.reverse_cons, Nat.ofDigits_append]
      simp [Nat.ofDigits, pow_succ]
      ring
theorem digits_mul_pow_add {b : Nat} (hb : 2 ≤ b) :
    ∀ (m q r : Nat), 0 < q → r < b ^ m →
      Nat.digits b (q * b ^ m + r) = padDigits b m r ++ Nat.digits b q := by
  intro m
  induction m with
  | zero =>
      intro q r _ hr
      have h0 : r = 0 := by simp [pow_zero] at hr; omega
      subst h0
      simp [padDigits]
  | succ m ih =>
      intro q r hq hr
      have hbpos : 0 < b := by omega
      have hX : 0 < q * b ^ (m + 1) + r :=
        Nat.lt_of_lt_of_le (Nat.pos_of_ne_zero (by positivity))
          (Nat.le_add_right _ _)
      rw [Nat.digits_def' (by omega : 1 < b) hX]
      have hmod : (q * b ^ (m + 1) + r) % b = r % b := by
        have h : q * b ^ (m + 1) + r = b * (q * b ^ m) + r := by ring
        rw [h, Nat.mul_add_mod]
      have hdiv : (q * b ^ (m + 1) + r) / b = q * b ^ m + r / b := by
        have h : q * b ^ (m + 1) + r = b * (q * b ^ m) + r := by ring
        rw [h, Nat.mul_add_div hbpos]
      have hr' : r / b < b ^ m := by
        rw [Nat.div_lt_iff_lt_mul hbpos]
        calc r < b ^ (m + 1) := hr
        _ = b ^ m * b := pow_succ b m
      rw [hmod, hdiv, ih q (r / b) hq hr']
      simp [padDigits]
theorem padDigits_ofDigits {b : Nat} (hb : 1 < b) :
    ∀ (ds : List Nat), (∀ d ∈ ds, d < b) →
      padDigits b ds.length (Nat.ofDigits b ds) = ds := by
  intro ds
  induction ds with
  | nil => intro _; simp [padDigits]
  | cons d tl ih =>
      intro hmem
      have hd : d < b := hmem d (by simp)
      rw [Nat.ofDigits_cons, List.length_cons]
      have h1 : (↑d + b * Nat.ofDigits b tl) % b = d := by
        rw [Nat.add_mul_mod_self_left, Nat.mod_eq_of_lt hd]
      have h2 : (↑d + b * Nat.ofDigits b tl) / b = Nat.ofDigits b tl := by
        rw [Nat.add_mul_div_left _ _ (by omega : 0 < b), Nat.div_eq_of_lt hd]
        omega
      rw [padDigits, h1, h2, ih (fun x hx => hmem x (by simp [hx]))]
theorem mapM_map_some {α β : Type} (f : β → Option α) (g : α → β) :
    ∀ (l : List α), (∀ x ∈ l, f (g x) = some x) → (l.map g).mapM f = some l := by
  intro l
  induction l with
  | nil => intro _; rfl
  | cons x tl ih =>
      intro h
      rw [List.map_cons, List.mapM_cons, h x (by simp), ih (fun y hy => h y (by simp [hy]))]
      rfl
theorem b58Index_b58Char : ∀ d, d < 58 → b58Index (b58Char d) = some d := by decide

/-- The did:key codec round-trip for arbitrary 32-byte keys.  The whole
34-element number `0xed01 * 256^32 + value(k)` lies in the window
`[18023 * 58^44, 18024 * 58^44)` of 47-digit base-58 numbers whose three most
significant digits read `6Mk`, which is why `decode`'s `did:key:z6Mk` guard
accepts every encoded Ed25519 key. -/
theorem ed25519_decode_encode :
    ∀ (k : List Nat), k.length = 32 → (∀ x ∈ k, x < 256) →
      Ed25519PubEncoder.decode (Ed25519PubEncoder.encode k) = some k := by
  intro k hlen hlt
  have hk : ∃ k0 ktl, k = k0 :: ktl := by
    cases k with
    | nil => simp at hlen
    | cons a t => exact ⟨a, t, rfl⟩
  obtain ⟨k0, ktl, rfl⟩ := hk
  set V := Nat.ofDigits 256 (k0 :: ktl).reverse with hV
  have hVlt : V < 256 ^ 32 := by
    have h1 : ∀ x ∈ (k0 :: ktl).reverse, x < 256 :=
      fun x hx => hlt x (List.mem_reverse.mp hx)
    have h2 := Nat.ofDigits_lt_base_pow_length (by norm_num : (1:Nat) < 256) h1
    rwa [List.length_reverse, hlen] at h2
  set N := 60673 * 256 ^ 32 + V with hN
  have hNpos : N ≠ 0 := by positivity
  have hfold : (Ed25519PubEncoder.code :: k0 :: ktl).foldl (fun a d => a * 256 + d) 0 = N := by
    rw [List.foldl_cons, foldl_mul_add, hlen, ← hV]
    norm_num [Ed25519PubEncoder.code, hN]
  have hlo : 18023 * 58 ^ 44 ≤ N :=
    le_trans (by decide) (Nat.le_add_right (60673 * 256 ^ 32) V)
  have hhi : N < 18024 * 58 ^ 44 := by
    have h2 : N < 60673 * 256 ^ 32 + 256 ^ 32 := by omega
    exact lt_of_lt_of_le h2 (by decide)
  have hdivN : N / 58 ^ 44 = 18023 := Nat.div_eq_of_lt_le hlo hhi
  have hmodN : N % 58 ^ 44 < 58 ^ 44 := Nat.mod_lt _ (by decide)
  have hsplit : N = 18023 * 58 ^ 44 + N % 58 ^ 44 := by
    conv_lhs => rw [← Nat.div_add_mod N (58 ^ 44)]
    rw [hdivN]; ring
  have hdigitsN : Nat.digits 58 N = padDigits 58 44 (N % 58 ^ 44) ++ [43, 20, 5] := by
    have h1 : Nat.digits 58 18023 = [43, 20, 5] := by
      rw [← toDigitsLE_eq_digits 58 (by norm_num) 18023 18023 le_rfl]
      decide
    calc Nat.digits 58 N
        = Nat.digits 58 (18023 * 58 ^ 44 + N % 58 ^ 44) := by rw [← hsplit]
      _ = padDigits 58 44 (N % 58 ^ 44) ++ Nat.digits 58 18023 :=
          digits_mul_pow_add (by norm_num) 44 18023 (N % 58 ^ 44) (by norm_num) hmodN
      _ = padDigits 58 44 (N % 58 ^ 44) ++ [43, 20, 5] := by rw [h1]
  have henc : Base58.encode (Ed25519PubEncoder.code :: k0 :: ktl)
      = ((Nat.digits 58 N).reverse).map b58Char := by
    rw [Base58.encode, if_neg (by simp), hfold, encDigits, if_neg hNpos,
      toDigitsLE_eq_digits 58 (by norm_num) N N le_rfl]
    have hz : jsLeadZeros (Ed25519PubEncoder.code :: k0 :: ktl) = 0 := by
      rw [jsLeadZeros, if_neg (by norm_num [Ed25519PubEncoder.code])]
    rw [hz]
    simp
  have hdigLt : ∀ x ∈ (Nat.digits 58 N).reverse, x < 58 :=
    fun x hx => Nat.digits_lt_base (by norm_num) (List.mem_reverse.mp hx)
  have hmapM : (((Nat.digits 58 N).reverse).map b58Char).mapM b58Index
      = some ((Nat.digits 58 N).reverse) :=
    mapM_map_some _ _ _ (fun x hx => b58Index_b58Char x (hdigLt x hx))
  have hfold2 : ((Nat.digits 58 N).reverse).foldl (fun a v => a * 58 + v) 0 = N := by
    rw [foldl_mul_add 58, List.reverse_reverse, Nat.ofDigits_digits]
    ring
  have hdigits256 : Nat.digits 256 N = padDigits 256 32 V ++ [1, 237] := by
    have h1 : Nat.digits 256 60673 = [1, 237] := by
      rw [← toDigitsLE_eq_digits 256 (by norm_num) 60673 60673 le_rfl]
      decide
    rw [hN, digits_mul_pow_add (by norm_num) 32 60673 V (by norm_num) hVlt, h1]
  have hpad : padDigits 256 32 V = (k0 :: ktl).reverse := by
    have h1 := padDigits_ofDigits (b := 256) (by norm_num) (k0 :: ktl).reverse
      (fun x hx => hlt x (List.mem_reverse.mp hx))
    rwa [List.length_reverse, hlen, ← hV] at h1
  have hhead : (Nat.digits 58 N).reverse.map b58Char
      = '6' :: 'M' :: 'k' :: ((padDigits 58 44 (N % 58 ^ 44)).reverse.map b58Char) := by
    rw [hdigitsN, List.reverse_append]
    rfl
  rw [Ed25519PubEncoder.encode, henc, Ed25519PubEncoder.decode]
  have hpre : (("did:key:z6Mk".toList).isPrefixOf
      (didHead ++ (Nat.digits 58 N).reverse.map b58Char)) = true := by
    rw [hhead]
    have hsplit2 : didHead ++ '6' :: 'M' :: 'k'
        :: ((padDigits 58 44 (N % 58 ^ 44)).reverse.map b58Char)
        = ("did:key:z6Mk".toList) ++ ((padDigits 58 44 (N % 58 ^ 44)).reverse.map b58Char) := by
      rfl
    rw [hsplit2]
    exact List.isPrefixOf_iff_prefix.mpr (List.prefix_append _ _)
  rw [if_pos hpre]
  have hdrop : (didHead ++ (Nat.digits 58 N).reverse.map b58Char).drop 9
      = (Nat.digits 58 N).reverse.map b58Char := by
    rw [show (9:Nat) = didHead.length from rfl, List.drop_left]
  rw [hdrop]
  have hones : jsLeadOnes ((Nat.digits 58 N).reverse.map b58Char) = 0 := by
    rw [hhead, jsLeadOnes, if_neg (by decide)]
  have hdecB : decBytes N = Nat.digits 256 N := by
    rw [decBytes, if_neg hNpos, toDigitsLE_eq_digits 256 (by norm_num) N N le_rfl]
  simp only [Base58.decode, hmapM, hones, hfold2, hdecB, hdigits256, hpad]
  simp

theorem b64Val_b64Char : ∀ v, v < 64 → b64Val (b64Char v) = some v := by decide
theorem b64Char_ne_pad : ∀ v, v < 64 → b64Char v ≠ '=' := by decide
theorem to_base64_true_length :
    ∀ (n : Nat) (bs : List Nat), bs.length ≤ n → (to_base64 true bs).length % 4 = 0 := by
  intro n
  induction n with
  | zero =>
      intro bs hbs
      have : bs = [] := List.length_eq_zero.mp (Nat.le_zero.mp hbs)
      simp [this, to_base64]
  | succ n ih =>
      intro bs hbs
      match bs with
      | [] => simp [to_base64]
      | [a] => simp [to_base64]
      | [a, b] => simp [to_base64]
      | a :: b :: c :: rest =>
          have h1 : rest.length ≤ n := by simp at hbs; omega
          have h2 := ih rest h1
          simp only [to_base64, List.length_cons]
          omega
theorem to_base64_true_ne_nil (bs : List Nat) (h : bs ≠ []) : to_base64 true bs ≠ [] := by
  match bs with
  | [] => exact absurd rfl h
  | [a] => simp [to_base64]
  | [a, b] => simp [to_base64]
  | a :: b :: c :: rest => simp [to_base64]
theorem padTo4_cons4 (c1 c2 c3 c4 : Char) (s : List Char) :
    padTo4 (c1 :: c2 :: c3 :: c4 :: s) = c1 :: c2 :: c3 :: c4 :: padTo4 s := by
  have h : (4 - (s.length + 1 + 1 + 1 + 1) % 4) % 4 = (4 - s.length % 4) % 4 := by omega
  simp [padTo4, h]
theorem padTo4_of_aligned (s : List Char) (h : s.length % 4 = 0) : padTo4 s = s := by
  simp [padTo4, h]
theorem padTo4_to_base64_false :
    ∀ (n : Nat) (bs : List Nat), bs.length ≤ n →
      padTo4 (to_base64 false bs) = to_base64 true bs := by
  intro n
  induction n with
  | zero =>
      intro bs hbs
      have : bs = [] := List.length_eq_zero.mp (Nat.le_zero.mp hbs)
      simp [this, to_base64, padTo4]
  | succ n ih =>
      intro bs hbs
      match bs with
      | [] => simp [to_base64, padTo4]
      | [a] =>
          show padTo4 [b64Char (a / 4), b64Char (a % 4 * 16)] = _
          simp [to_base64, padTo4, List.replicate]
      | [a, b] =>
          show padTo4 [b64Char (a / 4), b64Char (a % 4 * 16 + b / 16), b64Char (b % 16 * 4)] = _
          simp [to_base64, padTo4, List.replicate]
      | a :: b :: c :: rest =>
          have h1 : rest.length ≤ n := by simp at hbs; omega
          simp only [to_base64, padTo4_cons4, ih rest h1]
theorem from_base64_to_base64_true :
    ∀ (n : Nat) (bs : List Nat), bs.length ≤ n → (∀ x ∈ bs, x < 256) →
      from_base64 (to_base64 true bs) = some bs := by
  intro n
  induction n with
  | zero =>
      intro bs hbs _
      have : bs = [] := List.length_eq_zero.mp (Nat.le_zero.mp hbs)
      simp [this, to_base64, from_base64]
  | succ n ih =>
      intro bs hbs hlt
      match bs with
      | [] => simp [to_base64, from_base64]
      | [a] =>
          have ha : a < 256 := hlt a (by simp)
          have h1 := b64Val_b64Char (a / 4) (by omega)
          have h2 := b64Val_b64Char (a % 4 * 16) (by omega)
          simp [to_base64, from_base64, h1, h2, Nat.mul_mod_left]
          omega
      | [a, b] =>
          have ha : a < 256 := hlt a (by simp)
          have hb : b < 256 := hlt b (by simp)
          have h1 := b64Val_b64Char (a / 4) (by omega)
          have h2 := b64Val_b64Char (a % 4 * 16 + b / 16) (by omega)
          have h3 := b64Val_b64Char (b % 16 * 4) (by omega)
          have hne := b64Char_ne_pad (b % 16 * 4) (by omega)
          simp [to_base64, from_base64, h1, h2, h3, hne, Nat.mul_mod_left]
          omega
      | a :: b :: c :: rest =>
          have ha : a < 256 := hlt a (by simp)
          have hb : b < 256 := hlt b (by simp)
          have hc : c < 256 := hlt c (by simp)
          have h1 := b64Val_b64Char (a / 4) (by omega)
          have h2 := b64Val_b64Char (a % 4 * 16 + b / 16) (by omega)
          have h3 := b64Val_b64Char (b % 16 * 4 + c / 64) (by omega)
          have h4 := b64Val_b64Char (c % 64) (by omega)
          have hne3 := b64Char_ne_pad (b % 16 * 4 + c / 64) (by omega)
          have hne4 := b64Char_ne_pad (c % 64) (by omega)
          have hrest : rest.length ≤ n := by simp at hbs; omega
          have hih := ih rest hrest (fun x hx => hlt x (by simp [hx]))
          rcases rest with _ | ⟨r0, rtl⟩
          · simp [to_base64, from_base64, h1, h2, h3, h4, hne3, hne4]
            omega
          · have hne_nil : to_base64 true (r0 :: rtl) ≠ [] :=
              to_base64_true_ne_nil _ (by simp)
            have hempty : (to_base64 true (r0 :: rtl)).isEmpty = false := by
              cases hmt : to_base64 true (r0 :: rtl) with
              | nil => exact absurd hmt hne_nil
              | cons x xs => rfl
            simp [to_base64, from_base64, h1, h2, h3, h4, hempty, hih]
            omega
theorem b64dec_to_base64 (bs : List Nat) (h : ∀ x ∈ bs, x < 256) :
    b64dec (to_base64 true bs) = some bs ∧ b64dec (to_base64 false bs) = some bs := by
  constructor
  · rw [b64dec, padTo4_of_aligned _ (to_base64_true_length bs.length bs le_rfl)]
    exact from_base64_to_base64_true bs.length bs le_rfl h
  · rw [b64dec, padTo4_to_base64_false bs.length bs le_rfl]
    exact from_base64_to_base64_true bs.length bs le_rfl h

end ByteCodec

theorem keyMatch_valid (kp : KeyPair) (h : validKP kp) :
    Sodium.keyMatch (.curvePk (.raw kp.publicKey)) (.curveSk (.raw kp.privateKey)) = true := by
  simp [Sodium.keyMatch, h.2]

/-- Round trip when the unpacker's key heads the recipient list, anonymous
mode: the only multi-recipient position the source's first-entry-only scan can
serve. -/
theorem unpack_pack_first_anon (m : Data) (rest : List (List Nat)) (ent : Entropy)
    (kp : KeyPair) (h : validKP kp) :
    DIDComm.unpackMessage (.obj (DIDComm.packMessage m (kp.publicKey :: rest) none ent)) kp
      = .ok { message := m, recipientKey := .b58 (.raw kp.publicKey), senderKey := none } := by
  simp [DIDComm.unpackMessage, DIDComm.packMessage, DIDComm.prepareRecipientKeys,
    DIDComm.prepRecips, DIDComm.encryptPlaintext, DIDComm.decryptPlaintext,
    DIDComm.strB64dec, DIDComm.b64dec, DIDComm.b64url, DIDComm.parseProtected, Except.map,
    DIDComm.locateRecKey, DIDComm.decOptField, SymB58.encode, SymB58.decode,
    Sodium.to_base64D, Sodium.from_base64D, Sodium.to_string, Sodium.memcmp,
    Sodium.crypto_sign_ed25519_pk_to_curve25519, Sodium.crypto_sign_ed25519_sk_to_curve25519,
    Sodium.crypto_box_seal, Sodium.crypto_box_seal_open,
    Sodium.crypto_aead_chacha20poly1305_ietf_encrypt_detached,
    Sodium.crypto_aead_chacha20poly1305_ietf_decrypt_detached,
    Sodium.keyMatch, h.2]

/-- Round trip when the unpacker's key heads the recipient list, authenticated
mode, recovering the sender's base-58 verify key. -/
theorem unpack_pack_first_auth (m : Data) (rest : List (List Nat)) (ent : Entropy)
    (kpS kpR : KeyPair) (hS : validKP kpS) (hR : validKP kpR) :
    DIDComm.unpackMessage (.obj (DIDComm.packMessage m (kpR.publicKey :: rest) (some kpS) ent)) kpR
      = .ok { message := m, recipientKey := .b58 (.raw kpR.publicKey),
              senderKey := some (.b58 (.raw kpS.publicKey)) } := by
  simp [DIDComm.unpackMessage, DIDComm.packMessage, DIDComm.prepareRecipientKeys,
    DIDComm.prepRecips, DIDComm.encryptPlaintext, DIDComm.decryptPlaintext,
    DIDComm.strB64dec, DIDComm.b64dec, DIDComm.b64url, DIDComm.parseProtected, Except.map,
    DIDComm.locateRecKey, DIDComm.decOptField, SymB58.encode, SymB58.decode,
    Sodium.to_base64D, Sodium.from_base64D, Sodium.to_string, Sodium.memcmp,
    Sodium.crypto_sign_ed25519_pk_to_curve25519, Sodium.crypto_sign_ed25519_sk_to_curve25519,
    Sodium.crypto_box_seal, Sodium.crypto_box_seal_open,
    Sodium.crypto_box_easy, Sodium.crypto_box_open_easy,
    Sodium.crypto_aead_chacha20poly1305_ietf_encrypt_detached,
    Sodium.crypto_aead_chacha20poly1305_ietf_decrypt_detached,
    Sodium.keyMatch, hS.2, hR.2]

theorem recipsAll_prepRecips_anon (cek : List Nat) :
    ∀ (tks seeds : List (List Nat)),
      recipsAll (fun _ iv _ sender => iv == Data.nil && sender == Data.nil)
        (DIDComm.prepRecips cek none tks seeds) = true := by
  intro tks
  induction tks with
  | nil => intro seeds; rfl
  | cons tv tvs ih => intro seeds; simp [DIDComm.prepRecips, recipsAll, ih]

theorem recipsAll_prepRecips_auth (cek : List Nat) (fk : KeyPair) :
    ∀ (tks seeds : List (List Nat)),
      recipsAll (fun _ iv _ sender => !(iv == Data.nil) && !(sender == Data.nil))
        (DIDComm.prepRecips cek (some fk) tks seeds) = true := by
  intro tks
  induction tks with
  | nil => intro seeds; rfl
  | cons tv tvs ih =>
      intro seeds
      simp [DIDComm.prepRecips, recipsAll, ih, DIDComm.b64url, Sodium.to_base64D,
        Sodium.crypto_box_easy, Sodium.crypto_box_seal]

/-- Re-encoding the protected field differently (unpadded variant of the same
header) still lets the recipient key be located, but the AEAD decryption sees
different associated-data bytes and fails authentication. -/
theorem unpack_reencoded_protected_fails (m : Data) (rest : List (List Nat)) (ent : Entropy)
    (kp : KeyPair) (h : validKP kp) :
    DIDComm.unpackMessage (.obj { DIDComm.packMessage m (kp.publicKey :: rest) none ent with
      protected_ := .b64 false (DIDComm.prepareRecipientKeys (kp.publicKey :: rest) none ent).1 }) kp
      = .error .aeadAuthFailed := by
  simp [DIDComm.unpackMessage, DIDComm.packMessage, DIDComm.prepareRecipientKeys,
    DIDComm.prepRecips, DIDComm.encryptPlaintext, DIDComm.decryptPlaintext,
    DIDComm.strB64dec, DIDComm.b64dec, DIDComm.b64url, DIDComm.parseProtected, Except.map,
    DIDComm.locateRecKey, DIDComm.decOptField, SymB58.encode, SymB58.decode,
    Sodium.to_base64D, Sodium.from_base64D, Sodium.to_string, Sodium.memcmp,
    Sodium.crypto_sign_ed25519_pk_to_curve25519, Sodium.crypto_sign_ed25519_sk_to_curve25519,
    Sodium.crypto_box_seal, Sodium.crypto_box_seal_open,
    Sodium.crypto_aead_chacha20poly1305_ietf_encrypt_detached,
    Sodium.crypto_aead_chacha20poly1305_ietf_decrypt_detached,
    Sodium.keyMatch, h.2]

/-- A self-consistent envelope whose header carries arbitrary `enc` and `typ`
values unpacks successfully: `unpackMessage` reads only `alg` and
`recipients` from the parsed header. -/
theorem unpack_junk_enc_typ (e t : String) (m : Data) (ck ivb : List Nat) (kp : KeyPair)
    (h : validKP kp) :
    DIDComm.unpackMessage (.obj (mkAnonEnvelope e t m ck ivb kp.publicKey)) kp
      = .ok { message := m, recipientKey := .b58 (.raw kp.publicKey), senderKey := none } := by
  simp [mkAnonEnvelope, DIDComm.unpackMessage, DIDComm.strB64dec, DIDComm.b64dec,
    DIDComm.parseProtected, Except.map, DIDComm.locateRecKey, DIDComm.decOptField,
    DIDComm.decryptPlaintext, SymB58.decode, Sodium.from_base64D, Sodium.to_string,
    Sodium.memcmp, Sodium.crypto_sign_ed25519_pk_to_curve25519,
    Sodium.crypto_sign_ed25519_sk_to_curve25519, Sodium.crypto_box_seal_open,
    Sodium.crypto_aead_chacha20poly1305_ietf_decrypt_detached, Sodium.keyMatch, h.2]

/-- General form of C9's amended statement: every pack writes the fixed enc
tag `xchacha20poly1305_ietf` into the protected header, yet the ciphertext is
produced by the ChaCha20-Poly1305-IETF family with a nonce of that family's
12-byte size. -/
theorem pack_aead_is_chacha_under_xchacha_tag (m : Data) (toKeys : List (List Nat))
    (fromKeys : Option KeyPair) (ent : Entropy) (s : List Nat) :
    encOf (protHdr (DIDComm.packMessage m toKeys fromKeys ent)) = "xchacha20poly1305_ietf"
    ∧ (DIDComm.packMessage m toKeys fromKeys ent).ciphertext
      = .b64 true (.aeadCt Sodium.chacha20poly1305_ietf m
          (DIDComm.packMessage m toKeys fromKeys ent).protected_
          (.raw (Sodium.randombytes_buf Sodium.crypto_aead_chacha20poly1305_ietf_NPUBBYTES ent.ivSeed))
          (.raw (Sodium.crypto_secretstream_xchacha20poly1305_keygen ent.cekSeed)))
    ∧ Sodium.chacha20poly1305_ietf ≠ "xchacha20poly1305_ietf"
    ∧ (Sodium.randombytes_buf Sodium.crypto_aead_chacha20poly1305_ietf_NPUBBYTES s).length
      = Sodium.crypto_aead_chacha20poly1305_ietf_NPUBBYTES := by
  refine ⟨?_, ?_, by decide, ?_⟩
  · simp [DIDComm.packMessage, DIDComm.prepareRecipientKeys, protHdr, encOf,
      DIDComm.b64url, Sodium.to_base64D]
  · simp [DIDComm.packMessage, DIDComm.prepareRecipientKeys, DIDComm.encryptPlaintext,
      DIDComm.b64url, Sodium.to_base64D,
      Sodium.crypto_aead_chacha20poly1305_ietf_encrypt_detached]
  · simp [Sodium.randombytes_buf]

/-- C1: the claimed round trip `unpack(pack(m, R, sender), key).message == m`
for a recipient at ANY position fails on this code.  With recipients
`[B, C]`, unpacking as `C` hits the first-entry-only scan of `locateRecKey`
(its loop returns unconditionally in its first iteration): the code tries to
unwrap `B`'s entry with `C`'s keys and throws a sealed-box open failure, while
unpacking as `B` (first position) returns the message. -/
theorem unpack_ignores_later_recipients :
    DIDComm.unpackMessage
        (.obj (DIDComm.packMessage wMsg [wkpB.publicKey, wkpC.publicKey] none wEnt)) wkpC
      = .error .sealOpenFailed
    ∧ DIDComm.unpackMessage
        (.obj (DIDComm.packMessage wMsg [wkpB.publicKey, wkpC.publicKey] none wEnt)) wkpB
      = .ok { message := wMsg, recipientKey := .b58 (.raw wkpB.publicKey), senderKey := none } := by
  decide

/-- C2: the claim that a non-recipient keypair always fails with
`RecipientNotFound` fails on this code.  With one non-matching entry the code
attempts to unwrap that entry anyway and throws libsodium's sealed-box open
failure; the `RecipientNotFound` throw is reached only when the recipients
list is empty. -/
theorem unpack_nonrecipient_mismatch_error :
    DIDComm.unpackMessage (.obj (DIDComm.packMessage wMsg [wkpB.publicKey] none wEnt)) wkpC
      = .error .sealOpenFailed
    ∧ Err.sealOpenFailed ≠ .recipientNotFound
    ∧ DIDComm.unpackMessage (.obj (DIDComm.packMessage wMsg [] none wEnt)) wkpC
      = .error .recipientNotFound := by
  decide

/-- C3: the Key Identifier Codec satisfies `decode(encode(k)) = k` for every
valid 32-byte Ed25519 public key `k` — `encode` prepends the fixed 2-byte tag
(as the single array element `0xed01`), base-58-encodes and formats as
`did:key:z...`; `decode` strips the prefix and the two tag bytes. -/
theorem didkey_roundtrip (k : List Nat) (hlen : k.length = 32)
    (hbytes : ∀ x ∈ k, x < 256) :
    ByteCodec.Ed25519PubEncoder.decode (ByteCodec.Ed25519PubEncoder.encode k) = some k :=
  ByteCodec.ed25519_decode_encode k hlen hbytes

/-- Witness for C3 at the concrete key `List.range 32`. -/
theorem didkey_roundtrip_case :
    ((List.range 32).length = 32 ∧ ∀ x ∈ List.range 32, x < 256)
    ∧ ByteCodec.Ed25519PubEncoder.decode (ByteCodec.Ed25519PubEncoder.encode (List.range 32))
      = some (List.range 32) :=
  ⟨⟨by decide, by decide⟩, didkey_roundtrip (List.range 32) (by decide) (by decide)⟩

/-- C4: packing without a sender yields `alg = "Anoncrypt"` and `iv = null`,
`sender = null` in every recipient header; packing with a sender yields
`alg = "Authcrypt"` with both populated in every recipient header, and
unpacking (as the first-listed recipient, the only position the C1 scan
defect leaves reachable) recovers `senderKey` equal to the sender's base-58
public key. -/
theorem pack_mode_correctness (m : Data) (toKeys : List (List Nat)) (ent : Entropy)
    (kpS kpR : KeyPair) (rest : List (List Nat)) (hS : validKP kpS) (hR : validKP kpR) :
    (algOf (protHdr (DIDComm.packMessage m toKeys none ent)) = "Anoncrypt"
      ∧ recipsAll (fun _ iv _ sender => iv == Data.nil && sender == Data.nil)
          (recipsOf (protHdr (DIDComm.packMessage m toKeys none ent))) = true)
    ∧ (algOf (protHdr (DIDComm.packMessage m toKeys (some kpS) ent)) = "Authcrypt"
      ∧ recipsAll (fun _ iv _ sender => !(iv == Data.nil) && !(sender == Data.nil))
          (recipsOf (protHdr (DIDComm.packMessage m toKeys (some kpS) ent))) = true)
    ∧ DIDComm.unpackMessage (.obj (DIDComm.packMessage m (kpR.publicKey :: rest) (some kpS) ent)) kpR
      = .ok { message := m, recipientKey := SymB58.encode (.raw kpR.publicKey),
              senderKey := some (SymB58.encode (.raw kpS.publicKey)) } := by
  refine ⟨⟨?_, ?_⟩, ⟨?_, ?_⟩, unpack_pack_first_auth m rest ent kpS kpR hS hR⟩
  · simp [DIDComm.packMessage, DIDComm.prepareRecipientKeys, protHdr, algOf,
      DIDComm.b64url, Sodium.to_base64D]
  · simp only [DIDComm.packMessage, DIDComm.prepareRecipientKeys, protHdr, recipsOf,
      DIDComm.b64url, Sodium.to_base64D]
    exact recipsAll_prepRecips_anon _ _ _
  · simp [DIDComm.packMessage, DIDComm.prepareRecipientKeys, protHdr, algOf,
      DIDComm.b64url, Sodium.to_base64D]
  · simp only [DIDComm.packMessage, DIDComm.prepareRecipientKeys, protHdr, recipsOf,
      DIDComm.b64url, Sodium.to_base64D]
    exact recipsAll_prepRecips_auth _ _ _ _

/-- Witness for C4 at concrete keypairs and entropy. -/
theorem pack_mode_correctness_case :
    (validKP wkpA ∧ validKP wkpB)
    ∧ DIDComm.unpackMessage (.obj (DIDComm.packMessage wMsg [wkpB.publicKey] (some wkpA) wEnt)) wkpB
      = .ok { message := wMsg, recipientKey := SymB58.encode (.raw wkpB.publicKey),
              senderKey := some (SymB58.encode (.raw wkpA.publicKey)) } :=
  ⟨⟨by decide, by decide⟩,
    (pack_mode_correctness wMsg [wkpB.publicKey] wEnt wkpA wkpB [] (by decide) (by decide)).2.2⟩

/-- C5: on an Authcrypt envelope, if unwrapping the matched (head) recipient
entry recovers no sender identity — as when the entry lacks the sealed sender
field — `unpackMessage` fails with the MissingSenderKey error ("Sender public
key not provided in Authcrypt message") and returns no plaintext. -/
theorem authcrypt_missing_sender_errors (env : Envelope) (kp : KeyPair) (p : Bool)
    (e t : String) (recips : Data) (cek kid : Data)
    (hprot : env.protected_ = .b64 p (.hdrNode "Authcrypt" e recips t))
    (hloc : DIDComm.locateRecKey recips kp = .ok (cek, none, kid)) :
    DIDComm.unpackMessage (.obj env) kp = .error .missingSenderKey := by
  simp [DIDComm.unpackMessage, DIDComm.strB64dec, DIDComm.b64dec, Except.map,
    Sodium.from_base64D, Sodium.to_string, DIDComm.parseProtected, hprot, hloc]

/-- Witness for C5: a concrete Authcrypt envelope whose single entry is
anonymous-style (no iv, no sealed sender). -/
theorem authcrypt_missing_sender_case :
    (wStrippedEnv.protected_
        = .b64 true (.hdrNode "Authcrypt" "xchacha20poly1305_ietf" wStrippedRecips "JWM/1.0")
      ∧ DIDComm.locateRecKey wStrippedRecips wkpB
        = .ok (.raw [1, 2], none, .b58 (.raw wkpB.publicKey)))
    ∧ DIDComm.unpackMessage (.obj wStrippedEnv) wkpB = .error .missingSenderKey :=
  ⟨⟨rfl, by decide⟩,
    authcrypt_missing_sender_errors wStrippedEnv wkpB true "xchacha20poly1305_ietf" "JWM/1.0"
      wStrippedRecips (.raw [1, 2]) (.b58 (.raw wkpB.publicKey)) rfl (by decide)⟩

/-- C6: the padded base64url encoding of the serialized recipient header is
both the AEAD associated data of the content encryption and, unchanged, the
envelope's `protected` field; on unpack the original still-encoded `protected`
string is the associated data — so the untampered envelope decrypts, while the
same header re-encoded differently (unpadded) still locates the key but fails
AEAD authentication. -/
theorem protected_bytes_are_aead_ad (m : Data) (rest : List (List Nat)) (ent : Entropy)
    (kp : KeyPair) (h : validKP kp) :
    (DIDComm.packMessage m (kp.publicKey :: rest) none ent).protected_
      = .b64 true (DIDComm.prepareRecipientKeys (kp.publicKey :: rest) none ent).1
    ∧ (DIDComm.packMessage m (kp.publicKey :: rest) none ent).ciphertext
      = .b64 true (.aeadCt Sodium.chacha20poly1305_ietf m
          (DIDComm.packMessage m (kp.publicKey :: rest) none ent).protected_
          (.raw (Sodium.randombytes_buf Sodium.crypto_aead_chacha20poly1305_ietf_NPUBBYTES ent.ivSeed))
          (.raw (Sodium.crypto_secretstream_xchacha20poly1305_keygen ent.cekSeed)))
    ∧ DIDComm.unpackMessage (.obj (DIDComm.packMessage m (kp.publicKey :: rest) none ent)) kp
      = .ok { message := m, recipientKey := .b58 (.raw kp.publicKey), senderKey := none }
    ∧ DIDComm.unpackMessage (.obj { DIDComm.packMessage m (kp.publicKey :: rest) none ent with
        protected_ := .b64 false (DIDComm.prepareRecipientKeys (kp.publicKey :: rest) none ent).1 }) kp
      = .error .aeadAuthFailed := by
  refine ⟨rfl, ?_, unpack_pack_first_anon m rest ent kp h,
    unpack_reencoded_protected_fails m rest ent kp h⟩
  simp [DIDComm.packMessage, DIDComm.prepareRecipientKeys, DIDComm.encryptPlaintext,
    DIDComm.b64url, Sodium.to_base64D,
    Sodium.crypto_aead_chacha20poly1305_ietf_encrypt_detached]

/-- Witness for C6 at a concrete keypair and entropy. -/
theorem protected_bytes_are_aead_ad_case :
    validKP wkpB
    ∧ DIDComm.unpackMessage (.obj { DIDComm.packMessage wMsg [wkpB.publicKey] none wEnt with
        protected_ := .b64 false (DIDComm.prepareRecipientKeys [wkpB.publicKey] none wEnt).1 }) wkpB
      = .error .aeadAuthFailed :=
  ⟨by decide, (protected_bytes_are_aead_ad wMsg [] wEnt wkpB (by decide)).2.2.2⟩

/-- C7: `b64dec` decodes a base64url text to the same bytes whether or not
trailing `'='` padding is present, by right-padding the input with `'='` to a
multiple of four characters before decoding. -/
theorem b64dec_padding_tolerance (bs : List Nat) (h : ∀ x ∈ bs, x < 256) :
    ByteCodec.b64dec (ByteCodec.to_base64 true bs) = some bs
    ∧ ByteCodec.b64dec (ByteCodec.to_base64 false bs) = some bs :=
  ByteCodec.b64dec_to_base64 bs h

/-- Witness for C7 at the concrete bytes `[10, 200, 30, 4]` (a length that
needs two padding characters). -/
theorem b64dec_padding_tolerance_case :
    (∀ x ∈ [10, 200, 30, 4], x < 256)
    ∧ (ByteCodec.b64dec (ByteCodec.to_base64 true [10, 200, 30, 4]) = some [10, 200, 30, 4]
      ∧ ByteCodec.b64dec (ByteCodec.to_base64 false [10, 200, 30, 4]) = some [10, 200, 30, 4]) :=
  ⟨by decide, b64dec_padding_tolerance [10, 200, 30, 4] (by decide)⟩

/-- C8: `verify(sign(payload, keys)) = true` without throwing,
`decode(sign(payload, keys)) = payload`, and the signature is over exactly the
byte string `protected + "." + base64` of the attachment. -/
theorem signed_attachment_roundtrip (payload : Data) (keys : KeyPair) (h : validKP keys)
    (hlen : keys.publicKey.length = 32) (hbytes : ∀ x ∈ keys.publicKey, x < 256) :
    DIDComm.verifySignedAttachment (DIDComm.signedAttachment payload keys) = .ok true
    ∧ DIDComm.decodeSignedAttachment (DIDComm.signedAttachment payload keys) = .ok payload
    ∧ (DIDComm.signedAttachment payload keys).signature
      = DIDComm.b64url (Sodium.crypto_sign_detached
          (.dotPair (DIDComm.signedAttachment payload keys).protected_
            (DIDComm.signedAttachment payload keys).base64) keys.privateKey) false := by
  refine ⟨?_, ?_, rfl⟩
  · simp [DIDComm.verifySignedAttachment, DIDComm.signedAttachment, DIDComm.b64dec,
      DIDComm.b64url, Sodium.to_base64D, Sodium.from_base64D,
      ByteCodec.ed25519_decode_encode keys.publicKey hlen hbytes,
      Sodium.crypto_sign_detached, Sodium.crypto_sign_verify_detached, h.2]
  · simp [DIDComm.decodeSignedAttachment, DIDComm.signedAttachment, DIDComm.strB64dec,
      DIDComm.b64dec, DIDComm.b64url, Sodium.to_base64D, Sodium.from_base64D,
      Sodium.to_string, Except.map]

/-- Witness for C8 at a concrete keypair and payload. -/
theorem signed_attachment_roundtrip_case :
    (validKP wkpA ∧ wkpA.publicKey.length = 32 ∧ ∀ x ∈ wkpA.publicKey, x < 256)
    ∧ DIDComm.verifySignedAttachment (DIDComm.signedAttachment (.raw [1, 2, 3]) wkpA) = .ok true :=
  ⟨⟨by decide, by decide, by decide⟩,
    (signed_attachment_roundtrip (.raw [1, 2, 3]) wkpA (by decide) (by decide) (by decide)).1⟩

/-- C9 counterexample: the header's enc tag names `xchacha20poly1305_ietf`,
but the content ciphertext of this concrete pack is produced by the
`chacha20poly1305_ietf` family, and its nonce has that family's 12-byte size,
not the 24 bytes of the XChaCha variant the tag names. -/
theorem enc_tag_mismatches_aead_family :
    encOf (protHdr (DIDComm.packMessage wMsg [wkpB.publicKey] none wEnt)) = "xchacha20poly1305_ietf"
    ∧ (DIDComm.packMessage wMsg [wkpB.publicKey] none wEnt).ciphertext
      = .b64 true (.aeadCt "chacha20poly1305_ietf" wMsg
          (DIDComm.packMessage wMsg [wkpB.publicKey] none wEnt).protected_
          (.raw (Sodium.randombytes_buf 12 wEnt.ivSeed))
          (.raw (Sodium.crypto_secretstream_xchacha20poly1305_keygen wEnt.cekSeed)))
    ∧ ("chacha20poly1305_ietf" : String) ≠ "xchacha20poly1305_ietf"
    ∧ (Sodium.randombytes_buf 12 wEnt.ivSeed).length = 12
    ∧ Sodium.crypto_aead_xchacha20poly1305_ietf_NPUBBYTES = 24
    ∧ (12 : Nat) ≠ Sodium.crypto_aead_xchacha20poly1305_ietf_NPUBBYTES := by
  decide

/-- C10: `unpackMessage` accepts its envelope either as a JSON string (parsed)
or as an already-parsed object with the same result, and validates only the
`alg` field of the protected header: a self-consistent envelope with arbitrary
`enc` and `typ` values is accepted and unpacked. -/
theorem unpack_wrapper_forms_and_unchecked_fields :
    (∀ (w : Envelope) (kp : KeyPair),
      DIDComm.unpackMessage (.jsonText w) kp = DIDComm.unpackMessage (.obj w) kp)
    ∧ ∀ (e t : String) (m : Data) (ck ivb : List Nat) (kp : KeyPair), validKP kp →
        DIDComm.unpackMessage (.obj (mkAnonEnvelope e t m ck ivb kp.publicKey)) kp
          = .ok { message := m, recipientKey := .b58 (.raw kp.publicKey), senderKey := none } :=
  ⟨fun _ _ => rfl, fun e t m ck ivb kp h => unpack_junk_enc_typ e t m ck ivb kp h⟩

/-- Witness for C10: junk `enc`/`typ` values on a concrete self-consistent
envelope. -/
theorem unpack_wrapper_forms_case :
    validKP wkpB
    ∧ DIDComm.unpackMessage
        (.obj (mkAnonEnvelope "some-enc" "some-typ" wMsg [1, 2, 3] [9, 9] wkpB.publicKey)) wkpB
      = .ok { message := wMsg, recipientKey := .b58 (.raw wkpB.publicKey), senderKey := none } :=
  ⟨by decide,
    unpack_wrapper_forms_and_unchecked_fields.2 "some-enc" "some-typ" wMsg [1, 2, 3] [9, 9]
      wkpB (by decide)⟩
